import Mathlib

/-!
Verification development for the har-mcp repository: a HAR (HTTP Archive)
parser with a strict/tolerant two-tier JSON decode pipeline
(pkg/har/custom_types.go, pkg/har/parser.go), query and indexing functions
over the parsed archive, a redaction filter for sensitive headers, and a
session layer holding the current archive (cmd/har-mcp/main.go).

The Go code is shallowly embedded: JSON documents are modelled as an
abstract syntax tree (numbers carry their exact rational value plus a flag
recording whether the source literal had integer form, which is what
`encoding/json` consults when decoding into `int64`), Go pointers become
`Option`, Go `error` returns become `Except`, and a Go nil-pointer
dereference (panic) is modelled by a dedicated error value or by `none`.
-/

set_option maxRecDepth 10000
set_option exponentiation.threshold 2000

/-- A JSON value.  `num q intLit` carries the exact rational value of a JSON
number literal; `intLit` is `true` iff the literal has pure integer form
(no fraction, no exponent), which is what Go's `encoding/json` requires when
decoding into an `int64` field.  Object fields are kept in source order;
`encoding/json` lets a later duplicate key overwrite an earlier one. -/
inductive Json where
  | null : Json
  | bool (b : Bool) : Json
  | num (q : ℚ) (intLit : Bool) : Json
  | str (s : String) : Json
  | arr (elems : List Json) : Json
  | obj (fields : List (String × Json)) : Json

/-- An input byte buffer handed to `Parser.Parse`: either malformed JSON
(carrying the syntax-error message, which both decode attempts report
identically) or a well-formed JSON value. -/
inductive JsonDoc where
  | malformed (msg : String) : JsonDoc
  | value (j : Json) : JsonDoc

/-- Object field lookup with `encoding/json` duplicate-key semantics: the
last occurrence of a key wins. -/
def jget : List (String × Json) → String → Option Json
  | [], _ => none
  | (k', v) :: rest, k =>
    match jget rest k with
    | some v' => some v'
    | none => if k' = k then some v else none

/-- Truncation of a rational toward zero, the semantics of Go's
`int64(f)` conversion from `float64` (`custom_types.go:51`). -/
def truncQ (q : ℚ) : ℤ := q.num.tdiv q.den

/-- A timestamp, kept as its RFC 3339 textual representation (Go
`time.Time` round-trips the text through `Format(time.RFC3339)`; no claim
inspects the parsed instant, and both decode paths share the same
`time.Time` decoding). -/
structure Timestamp where
  raw : String
  deriving DecidableEq

/-- The RFC 3339 rendering of Go's zero `time.Time`. -/
def zeroTimestamp : Timestamp := ⟨"0001-01-01T00:00:00Z"⟩

/-- `time.Time.Format(time.RFC3339)` on a timestamp decoded from RFC 3339
text reproduces that text (fractional-second canonicalisation elided; no
claim depends on it). -/
def Timestamp.formatRFC3339 (t : Timestamp) : String := t.raw

/-- A name/value header pair (`har.Header`). -/
structure Header where
  Name : String
  Value : String
  deriving DecidableEq

/-- Default header (Go zero value). -/
def dHeader : Header := ⟨"", ""⟩

/-- `har.Creator`. -/
structure Creator where
  Name : String
  Version : String
  deriving DecidableEq

/-- `har.Request`.  Cookies, query string and post data use identical Go
types on both decode paths and are passed through all queries unchanged, so
they are modelled as opaque captured JSON. -/
structure Request where
  Method : String
  URL : String
  HTTPVersion : String
  Cookies : Option Json
  Headers : List Header
  QueryString : Option Json
  PostData : Option Json
  HeadersSize : Int
  BodySize : Int

/-- Default request (Go zero value), used only to state list-indexing
lemmas. -/
def dRequest : Request := ⟨"", "", "", none, [], none, none, 0, 0⟩

/-- `har.Content`.  `Text` is the decoded body bytes (`[]byte`); `none`
models a nil slice. -/
structure Content where
  Size : Int
  MimeType : String
  Text : Option (List Nat)
  Encoding : String
  deriving DecidableEq

/-- `har.Response`. -/
structure Response where
  Status : Int
  StatusText : String
  HTTPVersion : String
  Cookies : Option Json
  Headers : List Header
  Content : Option Content
  RedirectURL : String
  HeadersSize : Int
  BodySize : Int

/-- `har.Timings` (martian's canonical timings carry send/wait/receive). -/
structure Timings where
  Send : Int
  Wait : Int
  Receive : Int
  deriving DecidableEq

/-- `har.Entry`.  A nil `*har.Entry` produced by a JSON `null` array element
is modelled as a zero-valued entry (its `Request` is absent). -/
structure Entry where
  ID : String
  StartedDateTime : Timestamp
  Time : Int
  Request : Option Request
  Response : Option Response
  Cache : Option Json
  Timings : Option Timings

/-- Zero-valued entry. -/
def zeroEntry : Entry := ⟨"", zeroTimestamp, 0, none, none, none, none⟩

/-- `har.Log`. -/
structure Log where
  Version : String
  Creator : Option Creator
  Entries : List Entry

/-- `har.HAR`; `Log` is a pointer in Go and may be nil. -/
structure HAR where
  Log : Option Log

/-- `FlexibleTime` is an `int64` after decoding. -/
abbrev FlexibleTime := Int

/-- `FlexibleTimings` (all seven fields decode through `FlexibleTime`). -/
structure FlexibleTimings where
  Send : FlexibleTime
  Wait : FlexibleTime
  Receive : FlexibleTime
  Blocked : FlexibleTime
  DNS : FlexibleTime
  Connect : FlexibleTime
  SSL : FlexibleTime
  deriving DecidableEq

/-- `FlexibleContent`; `Text` is a `json.RawMessage`, i.e. the raw JSON
value of the `text` field (`none` models an absent field / empty raw
message). -/
structure FlexibleContent where
  Size : Int
  MimeType : String
  Text : Option Json
  Encoding : String

/-- `FlexibleResponse`. -/
structure FlexibleResponse where
  Status : Int
  StatusText : String
  HTTPVersion : String
  Cookies : Option Json
  Headers : List Header
  Content : Option FlexibleContent
  RedirectURL : String
  HeadersSize : Int
  BodySize : Int

/-- `FlexibleEntry`. -/
structure FlexibleEntry where
  ID : String
  StartedDateTime : Timestamp
  Time : FlexibleTime
  Request : Option Request
  Response : Option FlexibleResponse
  Cache : Option Json
  Timings : Option FlexibleTimings
  ServerIPAddress : String
  Connection : String
  Comment : String

/-- Zero-valued flexible entry (a JSON `null` array element leaves the
struct at its zero value). -/
def zeroFlexEntry : FlexibleEntry := ⟨"", zeroTimestamp, 0, none, none, none, none, "", "", ""⟩

/-- `FlexibleLog`; `Browser`/`Pages` are `interface` values accepting any
JSON. -/
structure FlexibleLog where
  Version : String
  Creator : Option Creator
  Entries : List FlexibleEntry
  Browser : Option Json
  Pages : Option Json
  Comment : String

/-- `FlexibleHAR`; `Log` is a pointer in Go and may be nil. -/
structure FlexibleHAR where
  Log : Option FlexibleLog

/-- Base64 value of a standard-alphabet character. -/
def b64Val (c : Char) : Option Nat :=
  if 'A' ≤ c ∧ c ≤ 'Z' then some (c.toNat - 65)
  else if 'a' ≤ c ∧ c ≤ 'z' then some (c.toNat - 97 + 26)
  else if '0' ≤ c ∧ c ≤ '9' then some (c.toNat - 48 + 52)
  else if c = '+' then some 62
  else if c = '/' then some 63
  else none

/-- Decode base64 four-character groups (standard encoding, padding
required, `=` only in the final group). -/
def b64Groups : List Char → Option (List Nat)
  | [] => some []
  | c1 :: c2 :: c3 :: c4 :: rest =>
    match b64Val c1, b64Val c2 with
    | some v1, some v2 =>
      if c3 = '=' then
        if c4 = '=' ∧ rest = [] then some [v1 * 4 + v2 / 16]
        else none
      else
        match b64Val c3 with
        | some v3 =>
          if c4 = '=' then
            if rest = [] then some [v1 * 4 + v2 / 16, v2 % 16 * 16 + v3 / 4]
            else none
          else
            match b64Val c4 with
            | some v4 =>
              (b64Groups rest).map
                (fun bs => (v1 * 4 + v2 / 16) :: (v2 % 16 * 16 + v3 / 4) :: (v3 % 4 * 64 + v4) :: bs)
            | none => none
        | none => none
    | _, _ => none
  | _ => none

/-- `base64.StdEncoding.DecodeString`: carriage returns and newlines are
ignored, the remaining length must be a multiple of four, padding is
required. -/
def base64Decode (s : String) : Option (List Nat) :=
  b64Groups (s.data.filter (fun c => !(c == '\r' || c == '\n')))

/-- UTF-8 encoding of one character. -/
def utf8EncodeCharM (c : Char) : List Nat :=
  let n := c.toNat
  if n < 128 then [n]
  else if n < 2048 then [192 + n / 64, 128 + n % 64]
  else if n < 65536 then [224 + n / 4096, 128 + n / 64 % 64, 128 + n % 64]
  else [240 + n / 262144, 128 + n / 4096 % 64, 128 + n / 64 % 64, 128 + n % 64]

/-- UTF-8 bytes of a string: the semantics of Go's `[]byte(s)` conversion. -/
def utf8Bytes (s : String) : List Nat :=
  s.data.foldr (fun c acc => utf8EncodeCharM c ++ acc) []

/-- Consume exactly `n` ASCII digits. -/
def chkDigits : Nat → List Char → Option (List Char)
  | 0, cs => some cs
  | _ + 1, [] => none
  | n + 1, c :: cs => if c.isDigit then chkDigits n cs else none

/-- Consume one expected character. -/
def chkChar (x : Char) : List Char → Option (List Char)
  | [] => none
  | c :: cs => if c = x then some cs else none

/-- Consume an optional fractional-seconds part. -/
def chkFrac : List Char → Option (List Char)
  | '.' :: cs =>
    let ds := cs.takeWhile Char.isDigit
    if ds = [] then none else some (cs.drop ds.length)
  | cs => some cs

/-- Consume a numeric or `Z` time zone. -/
def chkZone : List Char → Option (List Char)
  | [] => none
  | c :: cs =>
    if c = 'Z' then some cs
    else if c = '+' ∨ c = '-' then
      (chkDigits 2 cs).bind (fun r => (chkChar ':' r).bind (chkDigits 2))
    else none

/-- Syntactic RFC 3339 shape check, modelling `time.Parse(time.RFC3339, s)`
(calendar range validation elided; the check is shared verbatim by both
decode paths, so no claim depends on its exactness). -/
def isRFC3339 (s : String) : Bool :=
  let r := (chkDigits 4 s.data).bind (chkChar '-')
  let r := (r.bind (chkDigits 2)).bind (chkChar '-')
  let r := (r.bind (chkDigits 2)).bind (chkChar 'T')
  let r := (r.bind (chkDigits 2)).bind (chkChar ':')
  let r := (r.bind (chkDigits 2)).bind (chkChar ':')
  let r := ((r.bind (chkDigits 2)).bind chkFrac).bind chkZone
  match r with
  | some [] => true
  | _ => false

/-- `encoding/json` decode of an optional field into a Go `string`: an
absent field or JSON `null` leaves the zero value. -/
def goString : Option Json → Except String String
  | none => .ok ""
  | some .null => .ok ""
  | some (.str s) => .ok s
  | some _ => .error "json: cannot unmarshal value into Go value of type string"

/-- `encoding/json` decode of an optional field into a Go `int64`: the
number literal must have pure integer form and fit in 64 bits. -/
def goInt64 : Option Json → Except String Int
  | none => .ok 0
  | some .null => .ok 0
  | some (.num q ilit) =>
    if ilit ∧ q.den = 1 ∧ -(2 ^ 63) ≤ q.num ∧ q.num < 2 ^ 63 then .ok q.num
    else .error "json: cannot unmarshal number into Go value of type int64"
  | some _ => .error "json: cannot unmarshal value into Go value of type int64"

/-- `encoding/json` decode of an optional field into a Go `time.Time`
(RFC 3339 string required when present). -/
def goTime : Option Json → Except String Timestamp
  | none => .ok zeroTimestamp
  | some .null => .ok zeroTimestamp
  | some (.str s) =>
    if isRFC3339 s then .ok ⟨s⟩
    else .error "parsing time: cannot parse as RFC3339"
  | some _ => .error "json: cannot unmarshal value into Go value of type time.Time"

/-- Decode one `har.Header` (a `null` element leaves the zero value). -/
def decodeHeader : Json → Except String Header
  | .null => .ok dHeader
  | .obj f => do
    let n ← goString (jget f ("name"))
    let v ← goString (jget f ("value"))
    .ok ⟨n, v⟩
  | _ => .error "json: cannot unmarshal value into Go value of type har.Header"

/-- Decode an optional `[]har.Header` field. -/
def goHeaders : Option Json → Except String (List Header)
  | none => .ok []
  | some .null => .ok []
  | some (.arr xs) => xs.mapM decodeHeader
  | some _ => .error "json: cannot unmarshal value into Go value of type []har.Header"

/-- Decode an optional `*har.Creator` field. -/
def decodeCreator : Option Json → Except String (Option Creator)
  | none => .ok none
  | some .null => .ok none
  | some (.obj f) => do
    let n ← goString (jget f ("name"))
    let v ← goString (jget f ("version"))
    .ok (some ⟨n, v⟩)
  | some _ => .error "json: cannot unmarshal value into Go value of type har.Creator"

/-- Decode an optional `*har.Cache` field (an opaque struct: any JSON
object is accepted and passed through). -/
def decodeCache : Option Json → Except String (Option Json)
  | none => .ok none
  | some .null => .ok none
  | some (.obj f) => .ok (some (.obj f))
  | some _ => .error "json: cannot unmarshal value into Go value of type har.Cache"

/-- Decode an optional `*har.Request` field.  This decoding is shared
verbatim by the strict and tolerant paths (`FlexibleEntry` embeds
`*har.Request` directly).  Cookies, query string and post data are captured
opaquely: their Go types are identical on both paths and every query passes
them through unchanged. -/
def decodeRequest : Option Json → Except String (Option Request)
  | none => .ok none
  | some .null => .ok none
  | some (.obj f) => do
    let m ← goString (jget f ("method"))
    let u ← goString (jget f ("url"))
    let hv ← goString (jget f ("httpVersion"))
    let hs ← goHeaders (jget f ("headers"))
    let hsz ← goInt64 (jget f ("headersSize"))
    let bsz ← goInt64 (jget f ("bodySize"))
    .ok (some ⟨m, u, hv, jget f ("cookies"), hs, jget f ("queryString"), jget f ("postData"), hsz, bsz⟩)
  | some _ => .error "json: cannot unmarshal value into Go value of type har.Request"

/-- Decode of one JSON array element into a Go `uint8`. -/
def byteOfJson : Json → Except String Nat
  | .num q ilit =>
    if ilit ∧ q.den = 1 ∧ 0 ≤ q.num ∧ q.num < 256 then .ok q.num.toNat
    else .error "json: cannot unmarshal number into Go value of type uint8"
  | .null => .ok 0
  | _ => .error "json: cannot unmarshal value into Go value of type uint8"

/-- Strict decode of an optional `[]byte` field (`har.Content.Text`):
`encoding/json` expects a base64 string, a byte array, or `null`. -/
def goBytes : Option Json → Except String (Option (List Nat))
  | none => .ok none
  | some .null => .ok none
  | some (.str s) =>
    match base64Decode s with
    | some bs => .ok (some bs)
    | none => .error "illegal base64 data"
  | some (.arr xs) => (xs.mapM byteOfJson).map some
  | some _ => .error "json: cannot unmarshal value into Go value of type []uint8"

/-- Strict decode of an optional `*har.Content` field. -/
def decodeContentS : Option Json → Except String (Option Content)
  | none => .ok none
  | some .null => .ok none
  | some (.obj f) => do
    let sz ← goInt64 (jget f ("size"))
    let mt ← goString (jget f ("mimeType"))
    let tx ← goBytes (jget f ("text"))
    let en ← goString (jget f ("encoding"))
    .ok (some ⟨sz, mt, tx, en⟩)
  | some _ => .error "json: cannot unmarshal value into Go value of type har.Content"

/-- Strict decode of an optional `*har.Timings` field (all three canonical
fields are `int64`). -/
def decodeTimingsS : Option Json → Except String (Option Timings)
  | none => .ok none
  | some .null => .ok none
  | some (.obj f) => do
    let s ← goInt64 (jget f ("send"))
    let w ← goInt64 (jget f ("wait"))
    let r ← goInt64 (jget f ("receive"))
    .ok (some ⟨s, w, r⟩)
  | some _ => .error "json: cannot unmarshal value into Go value of type har.Timings"

/-- Strict decode of an optional `*har.Response` field. -/
def decodeResponseS : Option Json → Except String (Option Response)
  | none => .ok none
  | some .null => .ok none
  | some (.obj f) => do
    let st ← goInt64 (jget f ("status"))
    let sx ← goString (jget f ("statusText"))
    let hv ← goString (jget f ("httpVersion"))
    let hs ← goHeaders (jget f ("headers"))
    let ct ← decodeContentS (jget f ("content"))
    let ru ← goString (jget f ("redirectURL"))
    let hsz ← goInt64 (jget f ("headersSize"))
    let bsz ← goInt64 (jget f ("bodySize"))
    .ok (some ⟨st, sx, hv, jget f ("cookies"), hs, ct, ru, hsz, bsz⟩)
  | some _ => .error "json: cannot unmarshal value into Go value of type har.Response"

/-- Strict decode of one `[]*har.Entry` element (a `null` element is a nil
entry pointer, modelled as the zero entry). -/
def decodeEntryS : Json → Except String Entry
  | .null => .ok zeroEntry
  | .obj f => do
    let id ← goString (jget f ("_id"))
    let sd ← goTime (jget f ("startedDateTime"))
    let tm ← goInt64 (jget f ("time"))
    let rq ← decodeRequest (jget f ("request"))
    let rs ← decodeResponseS (jget f ("response"))
    let ca ← decodeCache (jget f ("cache"))
    let ti ← decodeTimingsS (jget f ("timings"))
    .ok ⟨id, sd, tm, rq, rs, ca, ti⟩
  | _ => .error "json: cannot unmarshal value into Go value of type har.Entry"

/-- Strict decode of the `log` object into `har.Log`. -/
def decodeLogS : Json → Except String Log
  | .obj f => do
    let v ← goString (jget f ("version"))
    let c ← decodeCreator (jget f ("creator"))
    let es ←
      match jget f ("entries") with
      | none => Except.ok []
      | some .null => Except.ok []
      | some (.arr xs) => xs.mapM decodeEntryS
      | some _ => Except.error "json: cannot unmarshal value into Go value of type []*har.Entry"
    .ok ⟨v, c, es⟩
  | _ => .error "json: cannot unmarshal value into Go value of type har.Log"

/-- The strict decoder: `json.NewDecoder(bytes.NewReader(data)).Decode(&harData)`
with `harData : har.HAR` (`parser.go:61-66`).  Unknown top-level fields are
ignored; a top-level `null` is a no-op leaving the zero value. -/
def strictDecodeHAR : JsonDoc → Except String HAR
  | .malformed m => .error m
  | .value .null => .ok ⟨none⟩
  | .value (.obj f) =>
    match jget f ("log") with
    | none => .ok ⟨none⟩
    | some .null => .ok ⟨none⟩
    | some j => (decodeLogS j).map (fun l => ⟨some l⟩)
  | .value _ => .error "json: cannot unmarshal value into Go value of type har.HAR"

/-- Strict rational order as a computation on numerators and denominators
(`Rat` arithmetic in the ambient library is sealed against unfolding, so
the float64 model below carries its own arithmetic, which every theorem
only ever evaluates). -/
def qLt (x y : ℚ) : Bool := x.num * (y.den : Int) < y.num * (x.den : Int)

/-- Rational multiplication via `mkRat`. -/
def qMul (x y : ℚ) : ℚ := mkRat (x.num * y.num) (x.den * y.den)

/-- Rational subtraction via `mkRat`. -/
def qSub (x y : ℚ) : ℚ := mkRat (x.num * (y.den : Int) - y.num * (x.den : Int)) (x.den * y.den)

/-- Rational negation via `mkRat`. -/
def qNeg (x : ℚ) : ℚ := mkRat (-x.num) x.den

/-- Fuel-driven binary logarithm (structural recursion so the kernel can
evaluate it; fuel `n` always suffices). -/
def log2Fuel : Nat → Nat → Nat
  | 0, _ => 0
  | fuel + 1, n => if n < 2 then 0 else log2Fuel fuel (n / 2) + 1

/-- `⌊log₂ n⌋` for positive `n`. -/
def natLog2 (n : Nat) : Nat := log2Fuel n n

/-- The rational value `2 ^ e` for a (possibly negative) exponent. -/
def pow2Z (e : Int) : ℚ :=
  if 0 ≤ e then mkRat (Int.ofNat (2 ^ e.toNat)) 1 else mkRat 1 (2 ^ (-e).toNat)

/-- Round a rational to the nearest integer, ties to even (IEEE 754
unbiased rounding, as `strconv.ParseFloat` uses). -/
def roundNearestEven (y : ℚ) : Int :=
  let n := y.num.fdiv y.den
  let f := qSub y (mkRat n 1)
  if qLt f (mkRat 1 2) then n
  else if qLt (mkRat 1 2) f then n + 1
  else if n % 2 = 0 then n else n + 1

/-- Correctly-rounded conversion of an exact rational to the nearest
IEEE 754 binary64 value, returned as an exact rational: the quantum is
`2 ^ (max ⌊log₂ x⌋ (-1022) - 52)` (covering normals and subnormals) and the
scaled mantissa is rounded to nearest, ties to even.  `none` models
overflow to infinity, which `strconv.ParseFloat` — and hence
`json.Unmarshal` into `float64` — reports as a range error. -/
def roundF64 (q : ℚ) : Option ℚ :=
  if q.num = 0 then some 0
  else
    let x := if q.num < 0 then qNeg q else q
    let e0 : Int := (natLog2 x.num.toNat : Int) - (natLog2 x.den : Int)
    let E : Int := if qLt x (pow2Z e0) then e0 - 1 else e0
    let gExp : Int := max E (-1022) - 52
    let n : Int := roundNearestEven (qMul x (pow2Z (-gExp)))
    let r : ℚ := qMul (mkRat n 1) (pow2Z gExp)
    if qLt r (pow2Z 1024) then some (if q.num < 0 then qNeg r else r) else none

/-- Go's `int64(f)` conversion of a (finite) `float64`: truncation toward
zero when the truncated value is representable.  When it is not, the Go
specification leaves the result implementation-defined (this repository's
build targets differ: amd64 produces `math.MinInt64` for every
out-of-range input, arm64 saturates toward the nearer bound); the model
picks `math.MinInt64` and no theorem in this file depends on that
branch. -/
def int64OfFloat (f : ℚ) : Int :=
  if -(Int.ofNat (2 ^ 63)) ≤ truncQ f ∧ truncQ f < Int.ofNat (2 ^ 63) then truncQ f
  else -(Int.ofNat (2 ^ 63))

/-- `FlexibleTime.UnmarshalJSON` (`custom_types.go:45-53`): unmarshal the
raw value as a `float64` — the number literal is rounded to the nearest
binary64, and a literal beyond the `float64` range is a decode error
(`null` is a no-op leaving zero) — then convert via `int64(f)`. -/
def FlexibleTime.UnmarshalJSON : Json → Except String FlexibleTime
  | .null => .ok 0
  | .num q _ =>
    match roundF64 q with
    | some f => .ok (int64OfFloat f)
    | none => .error "json: cannot unmarshal number into Go value of type float64"
  | _ => .error "json: cannot unmarshal value into Go value of type float64"

/-- Decode of one time-like struct field: an absent field leaves the zero
value without invoking `UnmarshalJSON`. -/
def flexTimeField : Option Json → Except String FlexibleTime
  | none => .ok 0
  | some j => FlexibleTime.UnmarshalJSON j

/-- Tolerant decode of an optional `*FlexibleTimings` field: every
sub-field is time-like and optional. -/
def decodeFlexTimings : Option Json → Except String (Option FlexibleTimings)
  | none => .ok none
  | some .null => .ok none
  | some (.obj f) => do
    let s ← flexTimeField (jget f ("send"))
    let w ← flexTimeField (jget f ("wait"))
    let r ← flexTimeField (jget f ("receive"))
    let b ← flexTimeField (jget f ("blocked"))
    let d ← flexTimeField (jget f ("dns"))
    let c ← flexTimeField (jget f ("connect"))
    let ss ← flexTimeField (jget f ("ssl"))
    .ok (some ⟨s, w, r, b, d, c, ss⟩)
  | some _ => .error "json: cannot unmarshal value into Go value of type FlexibleTimings"

/-- Tolerant decode of an optional `*FlexibleContent` field: `text` is a
`json.RawMessage` capturing the raw JSON value. -/
def decodeFlexContent : Option Json → Except String (Option FlexibleContent)
  | none => .ok none
  | some .null => .ok none
  | some (.obj f) => do
    let sz ← goInt64 (jget f ("size"))
    let mt ← goString (jget f ("mimeType"))
    let en ← goString (jget f ("encoding"))
    .ok (some ⟨sz, mt, jget f ("text"), en⟩)
  | some _ => .error "json: cannot unmarshal value into Go value of type FlexibleContent"

/-- Tolerant decode of an optional `*FlexibleResponse` field. -/
def decodeFlexResponse : Option Json → Except String (Option FlexibleResponse)
  | none => .ok none
  | some .null => .ok none
  | some (.obj f) => do
    let st ← goInt64 (jget f ("status"))
    let sx ← goString (jget f ("statusText"))
    let hv ← goString (jget f ("httpVersion"))
    let hs ← goHeaders (jget f ("headers"))
    let ct ← decodeFlexContent (jget f ("content"))
    let ru ← goString (jget f ("redirectURL"))
    let hsz ← goInt64 (jget f ("headersSize"))
    let bsz ← goInt64 (jget f ("bodySize"))
    .ok (some ⟨st, sx, hv, jget f ("cookies"), hs, ct, ru, hsz, bsz⟩)
  | some _ => .error "json: cannot unmarshal value into Go value of type FlexibleResponse"

/-- Tolerant decode of one `[]FlexibleEntry` element. -/
def decodeFlexEntry : Json → Except String FlexibleEntry
  | .null => .ok zeroFlexEntry
  | .obj f => do
    let id ← goString (jget f ("_id"))
    let sd ← goTime (jget f ("startedDateTime"))
    let tm ← flexTimeField (jget f ("time"))
    let rq ← decodeRequest (jget f ("request"))
    let rs ← decodeFlexResponse (jget f ("response"))
    let ca ← decodeCache (jget f ("cache"))
    let ti ← decodeFlexTimings (jget f ("timings"))
    let ip ← goString (jget f ("serverIPAddress"))
    let cn ← goString (jget f ("connection"))
    let cm ← goString (jget f ("comment"))
    .ok ⟨id, sd, tm, rq, rs, ca, ti, ip, cn, cm⟩
  | _ => .error "json: cannot unmarshal value into Go value of type FlexibleEntry"

/-- Tolerant decode of the `log` object into `FlexibleLog`; `browser` and
`pages` are `interface` fields accepting any JSON. -/
def decodeFlexLog : Json → Except String FlexibleLog
  | .obj f => do
    let v ← goString (jget f ("version"))
    let c ← decodeCreator (jget f ("creator"))
    let es ←
      match jget f ("entries") with
      | none => Except.ok []
      | some .null => Except.ok []
      | some (.arr xs) => xs.mapM decodeFlexEntry
      | some _ => Except.error "json: cannot unmarshal value into Go value of type []FlexibleEntry"
    let cm ← goString (jget f ("comment"))
    .ok ⟨v, c, es, jget f ("browser"), jget f ("pages"), cm⟩
  | _ => .error "json: cannot unmarshal value into Go value of type FlexibleLog"

/-- The tolerant decoder: `decoder.Decode(&flexibleHAR)` on the same buffer
(`parser.go:69-73`). -/
def flexDecodeHAR : JsonDoc → Except String FlexibleHAR
  | .malformed m => .error m
  | .value .null => .ok ⟨none⟩
  | .value (.obj f) =>
    match jget f ("log") with
    | none => .ok ⟨none⟩
    | some .null => .ok ⟨none⟩
    | some j => (decodeFlexLog j).map (fun l => ⟨some l⟩)
  | .value _ => .error "json: cannot unmarshal value into Go value of type FlexibleHAR"

/-- `goUnmarshalStr`: `json.Unmarshal(fc.Text, &textStr)` on the raw text
value (`custom_types.go:115-116`); a raw `null` is a no-op leaving the
empty string. -/
def goUnmarshalStr : Json → Except String String
  | .null => .ok ""
  | .str s => .ok s
  | _ => .error "json: cannot unmarshal value into Go value of type string"

/-- `json.Unmarshal(fc.Text, &textBytes)` with `textBytes : []byte`
(`custom_types.go:133-134`). -/
def goUnmarshalByteSlice : Json → Except String (Option (List Nat))
  | .null => .ok none
  | .str s =>
    match base64Decode s with
    | some bs => .ok (some bs)
    | none => .error "illegal base64 data"
  | .arr xs => (xs.mapM byteOfJson).map some
  | _ => .error "json: cannot unmarshal value into Go value of type []uint8"

/-- `FlexibleTimings.ToStandardTimings` (`custom_types.go:68-77`): nil
receiver maps to nil; only send/wait/receive survive. -/
def FlexibleTimings.ToStandardTimings : Option FlexibleTimings → Option Timings
  | none => none
  | some ft => some ⟨ft.Send, ft.Wait, ft.Receive⟩

/-- `FlexibleContent.ToStandardContent` (`custom_types.go:101-141`): decode
the raw `text` value as a string if possible; a string tagged
`encoding == "base64"` is base64-decoded, falling back to the literal
string bytes when decoding fails; a non-string raw value is retried as a
`[]byte`; any remaining failure leaves `Text` nil. -/
def FlexibleContent.ToStandardContent : Option FlexibleContent → Option Content
  | none => none
  | some fc =>
    some
      { Size := fc.Size, MimeType := fc.MimeType, Encoding := fc.Encoding,
        Text :=
          match fc.Text with
          | none => none
          | some j =>
            match goUnmarshalStr j with
            | .ok textStr =>
              if fc.Encoding = "base64" then
                match base64Decode textStr with
                | some decoded => some decoded
                | none => some (utf8Bytes textStr)
              else some (utf8Bytes textStr)
            | .error _ =>
              match goUnmarshalByteSlice j with
              | .ok textBytes => textBytes
              | .error _ => none }

/-- `FlexibleResponse.ToStandardResponse` (`custom_types.go:144-160`). -/
def FlexibleResponse.ToStandardResponse : Option FlexibleResponse → Option Response
  | none => none
  | some fr =>
    some ⟨fr.Status, fr.StatusText, fr.HTTPVersion, fr.Cookies, fr.Headers,
      FlexibleContent.ToStandardContent fr.Content, fr.RedirectURL, fr.HeadersSize, fr.BodySize⟩

/-- `FlexibleHAR.ToStandardHAR` (`custom_types.go:163-186`).  The source
dereferences `fh.Log` without a nil check; `none` models the resulting
nil-pointer dereference panic when the log section is absent. -/
def FlexibleHAR.ToStandardHAR (fh : FlexibleHAR) : Option HAR :=
  match fh.Log with
  | none => none
  | some l =>
    some ⟨some ⟨l.Version, l.Creator,
      l.Entries.map (fun fe =>
        ⟨fe.ID, fe.StartedDateTime, fe.Time, fe.Request,
          FlexibleResponse.ToStandardResponse fe.Response, fe.Cache,
          FlexibleTimings.ToStandardTimings fe.Timings⟩)⟩⟩

/-- Error taxonomy of `Parser.Parse`: `unparseable` wraps the cause from
the tolerant attempt (message "failed to parse HAR file: %w");
`nilLogPanic` models the nil-pointer dereference inside `ToStandardHAR`. -/
inductive ParseError where
  | unparseable (cause : String) : ParseError
  | nilLogPanic : ParseError
  deriving DecidableEq

/-- `Parser.Parse` (`parser.go:53-77`): strict decode first; on failure the
tolerant decode on the same buffer; on tolerant failure, fail with the
tolerant cause (the strict failure is discarded); on tolerant success,
convert and return. -/
def Parse (data : JsonDoc) : Except ParseError HAR :=
  match strictDecodeHAR data with
  | .ok harData => .ok harData
  | .error _ =>
    match flexDecodeHAR data with
    | .error e => .error (.unparseable e)
    | .ok flexibleHAR =>
      match flexibleHAR.ToStandardHAR with
      | some h => .ok h
      | none => .error .nilLogPanic

/-- Outcome of the `http.Get` fetch in `ParseFromURL`: an I/O failure
(connection error, timeout) or a response with a status code and body. -/
inductive FetchResult where
  | failure (msg : String) : FetchResult
  | response (status : Nat) (body : JsonDoc) : FetchResult

/-- Error taxonomy of a load: source acquisition versus document parsing,
distinguished in the source by the wrapping error messages. -/
inductive LoadError where
  | source (msg : String) : LoadError
  | parse (e : ParseError) : LoadError
  deriving DecidableEq

/-- Decimal digit character. -/
def decDigit (k : Nat) : Char := Char.ofNat (48 + k)

/-- Fuel-driven digit expansion (structural recursion on the fuel, so that
the kernel can evaluate it; the fuel `n + 1` always suffices). -/
def natToDecAux : Nat → Nat → List Char
  | 0, _ => []
  | fuel + 1, n =>
    if n < 10 then [decDigit n]
    else natToDecAux fuel (n / 10) ++ [decDigit (n % 10)]

/-- Decimal digits of a natural number, most significant first: the
semantics of `fmt.Sprintf` with verb `d` on a non-negative value. -/
def natToDec (n : Nat) : List Char := natToDecAux (n + 1) n

/-- Decimal rendering of a natural number. -/
def natStr (n : Nat) : String := ⟨natToDec n⟩

/-- `ParseFromURL` (`parser.go:38-50`): an I/O failure or a status other
than exactly `http.StatusOK` (200) is a source error; only a 200 body is
handed to `Parse`. -/
def ParseFromURL (r : FetchResult) : Except LoadError HAR :=
  match r with
  | .failure msg => .error (.source ("failed to fetch HAR from URL: " ++ msg))
  | .response status body =>
    if status ≠ 200 then .error (.source ("failed to fetch HAR: HTTP " ++ natStr status))
    else
      match Parse body with
      | .ok h => .ok h
      | .error e => .error (.parse e)

/-- Decimal value of a most-significant-first digit list. -/
def decVal (ds : List Char) : Nat :=
  ds.foldl (fun a c => 10 * a + (c.toNat - 48)) 0

/-- Scan a non-empty run of leading decimal digits, ignoring whatever
follows (the `fmt` scanner stops at the first non-digit and does not
require the input to be fully consumed). -/
def scanDigits (cs : List Char) : Option Nat :=
  let ds := cs.takeWhile Char.isDigit
  if ds = [] then none else some (decVal ds)

/-- Consume an expected literal character sequence. -/
def stripLit : List Char → List Char → Option (List Char)
  | [], cs => some cs
  | _ :: _, [] => none
  | p :: ps, c :: cs => if c = p then stripLit ps cs else none

/-- The white-space set the `fmt` scanner skips before a verb: all of
`unicode.White_Space` except the newline, which `Sscanf` (newlines must
match the format) rejects instead of skipping — and since a newline is not
a digit, rejection and a failed digit scan coincide in the model. -/
def isGoScanSpace (c : Char) : Bool :=
  let n := c.toNat
  n == 9 || (11 ≤ n && n ≤ 13) || n == 32 || n == 133 || n == 160 || n == 5760 ||
    (8192 ≤ n && n ≤ 8202) || n == 8232 || n == 8233 || n == 8239 || n == 8287 || n == 12288

/-- The `fmt.Sscanf(requestID, "request_%d", &index)` scan
(`parser.go:168`): the literal `request_` must match, then verb `d` skips
white space (any `unicode.White_Space` rune; an embedded newline makes the
scan fail, as does anything else that is not a digit), accepts an optional
sign and at least one decimal digit, requires the value to fit in a 64-bit
`int`, and leaves any trailing characters unconsumed (`Sscanf` does not
require the whole input to match). -/
def scanRequestIndex (s : String) : Option Int :=
  match stripLit ("request_".data) s.data with
  | none => none
  | some rest =>
    let rest := rest.dropWhile isGoScanSpace
    match rest with
    | [] => none
    | c :: cs =>
      if c = '-' then
        (scanDigits cs).bind (fun n => if n ≤ 2 ^ 63 then some (-(n : Int)) else none)
      else if c = '+' then
        (scanDigits cs).bind (fun n => if n < 2 ^ 63 then some ((n : Int)) else none)
      else
        (scanDigits (c :: cs)).bind (fun n => if n < 2 ^ 63 then some ((n : Int)) else none)

/-- Positional identifier of an entry: `fmt.Sprintf` of `request_` and the
zero-based index (`parser.go:97`). -/
def mkRequestID (i : Nat) : String := ⟨("request_".data) ++ natToDec i⟩

/-- The fixed set of sensitive header names, all lower-case
(`parser.go:206-213`). -/
def authHeaderNames : List String :=
  ["authorization", "x-api-key", "x-auth-token", "cookie", "set-cookie", "proxy-authorization"]

/-- Per-rune simple lower-casing, modelling `unicode.ToLower`.  ASCII
letters map as usual.  Exactly two non-ASCII code points have an ASCII
simple lowercase image and are mapped exactly: U+0130 (Latin capital I
with dot above) → `i` and U+212A (Kelvin sign) → `k`.  Every other
non-ASCII rune's simple lowercase image is itself non-ASCII, so — since
the sensitive header names are pure ASCII — leaving those runes unchanged
cannot alter membership in the sensitive set, and the model keeps them
as-is rather than carrying the full Unicode case table. -/
def goCharToLower (c : Char) : Char :=
  if c.toNat = 304 then 'i'
  else if c.toNat = 8490 then 'k'
  else if c.toNat < 128 then c.toLower
  else c

/-- `strings.ToLower`: per-rune simple lower-casing. -/
def goToLower (s : String) : String := ⟨s.data.map goCharToLower⟩

/-- `Parser.redactAuthHeaders` (`parser.go:205-228`): copy every header,
replacing the value with the sentinel when the lower-cased name is in the
sensitive set. -/
def redactAuthHeaders (headers : List Header) : List Header :=
  headers.map (fun header =>
    if goToLower header.Name ∈ authHeaderNames then
      { Name := header.Name, Value := "[REDACTED]" }
    else
      { Name := header.Name, Value := header.Value })

/-- `URLMethodEntry` (`parser.go:80-84`). -/
structure URLMethodEntry where
  URL : String
  Method : String
  RequestIDs : List String
  deriving DecidableEq

/-- Map insertion of `GetURLsAndMethods` (`parser.go:99-107`), modelled on
an association list: an existing key has the new request ID appended to its
entry; a new key is inserted.  (Go map iteration order is unspecified; the
association list realises one admissible order, first-seen.) -/
def upsertGroup (key url method id : String) :
    List (String × URLMethodEntry) → List (String × URLMethodEntry)
  | [] => [(key, ⟨url, method, [id]⟩)]
  | (k, e) :: rest =>
    if k = key then (k, { e with RequestIDs := e.RequestIDs ++ [id] }) :: rest
    else (k, e) :: upsertGroup key url method id rest

/-- Indexed traversal of the entry loop, keyed by
`entry.Request.URL + "|" + entry.Request.Method` exactly as the source
builds it with `fmt.Sprintf` (`parser.go:96`); entries with a nil request
are skipped. -/
def collectGroups : List (Nat × Entry) → List (String × URLMethodEntry) →
    List (String × URLMethodEntry)
  | [], acc => acc
  | (i, entry) :: rest, acc =>
    match entry.Request with
    | none => collectGroups rest acc
    | some req =>
      collectGroups rest
        (upsertGroup (req.URL ++ "|" ++ req.Method) req.URL req.Method (mkRequestID i) acc)

/-- Pair each list element with its index, as Go's `range` does. -/
def withIdx (base : Nat) : List α → List (Nat × α)
  | [] => []
  | a :: as => (base, a) :: withIdx (base + 1) as

/-- `Parser.GetURLsAndMethods` (`parser.go:87-117`); `none` models the
nil-pointer dereference when the archive's log is nil. -/
def GetURLsAndMethods (harData : HAR) : Option (List URLMethodEntry) :=
  match harData.Log with
  | none => none
  | some l => some ((collectGroups (withIdx 0 l.Entries) []).map Prod.snd)

/-- `Parser.GetRequestIDsForURLMethod` (`parser.go:120-135`). -/
def GetRequestIDsForURLMethod (harData : HAR) (targetURL method : String) :
    Option (List String) :=
  match harData.Log with
  | none => none
  | some l =>
    some ((withIdx 0 l.Entries).filterMap (fun p =>
      match p.2.Request with
      | none => none
      | some req =>
        if req.URL = targetURL ∧ req.Method = method then some (mkRequestID p.1) else none))

/-- `RequestInfo` (`parser.go:152-162`): like `har.Request` but with
redacted headers. -/
structure RequestInfo where
  Method : String
  URL : String
  HTTPVersion : String
  Cookies : Option Json
  Headers : List Header
  QueryString : Option Json
  PostData : Option Json
  HeadersSize : Int
  BodySize : Int

/-- `RequestDetails` (`parser.go:138-149`); `Time` is `float64(entry.Time)`
which is exact on these magnitudes. -/
structure RequestDetails where
  RequestID : String
  StartedDateTime : String
  Time : Int
  Request : RequestInfo
  Response : Option Response
  Cache : Option Json
  Timings : Option Timings

/-- Failure modes of `GetRequestDetails`: malformed identifier, index out
of range, or a nil-pointer dereference panic (nil log or nil request). -/
inductive QueryError where
  | invalidID (id : String) : QueryError
  | outOfRange (id : String) : QueryError
  | nilPanic : QueryError
  deriving DecidableEq

/-- The `RequestDetails` value built for one entry whose request is
present (`parser.go:179-199`). -/
def mkDetails (requestID : String) (entry : Entry) (req : Request) : RequestDetails :=
  { RequestID := requestID,
    StartedDateTime := entry.StartedDateTime.formatRFC3339,
    Time := entry.Time,
    Request :=
      { Method := req.Method, URL := req.URL, HTTPVersion := req.HTTPVersion,
        Cookies := req.Cookies, Headers := redactAuthHeaders req.Headers,
        QueryString := req.QueryString, PostData := req.PostData,
        HeadersSize := req.HeadersSize, BodySize := req.BodySize },
    Response := entry.Response, Cache := entry.Cache, Timings := entry.Timings }

/-- `Parser.GetRequestDetails` (`parser.go:165-202`): scan the index out of
the identifier, range-check it against the entry list, then project the
entry with redacted request headers.  The returned details carry the
original identifier string. -/
def GetRequestDetails (harData : HAR) (requestID : String) :
    Except QueryError RequestDetails :=
  match scanRequestIndex requestID with
  | none => .error (.invalidID requestID)
  | some index =>
    match harData.Log with
    | none => .error .nilPanic
    | some l =>
      if index < 0 ∨ (l.Entries.length : Int) ≤ index then .error (.outOfRange requestID)
      else
        let entry := l.Entries.getD index.toNat zeroEntry
        match entry.Request with
        | none => .error .nilPanic
        | some req => .ok (mkDetails requestID entry req)

/-- `HARServer` session state (`main.go:17-20`): the parser is stateless;
`harData` is the current archive, nil before the first successful load. -/
structure HARServer where
  harData : Option HAR

/-- `HARServer.loadHAR` (`main.go:30-37`).  Source acquisition and parsing
are I/O; the model takes the outcome of `ParseSource` as input.  On failure
the error is wrapped and the state is returned unchanged; only on success
is the current archive replaced. -/
def loadHAR (h : HARServer) (parseSourceResult : Except LoadError HAR) :
    HARServer × Option LoadError :=
  match parseSourceResult with
  | .error err => (h, some err)
  | .ok harData => ({ harData := some harData }, none)

/-- `HARServer.handleListURLsMethods` (`main.go:128-140`), minus the JSON
reply envelope. -/
def handleListURLsMethods (h : HARServer) : Except String (Option (List URLMethodEntry)) :=
  match h.harData with
  | none => .error "No HAR file loaded. Please load a HAR file first using load_har."
  | some harData => .ok (GetURLsAndMethods harData)

/-- `HARServer.handleGetRequestIDs` (`main.go:143-163`), minus the JSON
reply envelope. -/
def handleGetRequestIDs (h : HARServer) (url method : String) :
    Except String (Option (List String)) :=
  match h.harData with
  | none => .error "No HAR file loaded. Please load a HAR file first using load_har."
  | some harData => .ok (GetRequestIDsForURLMethod harData url method)

/-- `HARServer.handleGetRequestDetails` (`main.go:166-189`), minus the JSON
reply envelope. -/
def handleGetRequestDetails (h : HARServer) (requestID : String) :
    Except String (Except QueryError RequestDetails) :=
  match h.harData with
  | none => .error "No HAR file loaded. Please load a HAR file first using load_har."
  | some harData => .ok (GetRequestDetails harData requestID)

/-- The JSON value of an optional time-like field supplied as a number. -/
def numOpt (o : Option (ℚ × Bool)) : Option Json := o.map (fun p => Json.num p.1 p.2)

/-- Expected decode of an optional time-like field: truncation toward zero
when present, zero when absent. -/
def tvalOf : Option (ℚ × Bool) → Int
  | none => 0
  | some p => truncQ p.1

/-- An optional time-like value is benign when absent, or present with a
number that is exactly representable as a binary64 and whose truncation
fits a 64-bit `int` — the cases in which the float64 pipeline degenerates
to exact truncation. -/
def okOpt : Option (ℚ × Bool) → Prop
  | none => True
  | some p =>
    roundF64 p.1 = some p.1 ∧
      -(Int.ofNat (2 ^ 63)) ≤ truncQ p.1 ∧ truncQ p.1 < Int.ofNat (2 ^ 63)

/-- A benign optional time-like field decodes to its truncated value, or
zero when absent. -/
theorem flexTimeField_numOpt (o : Option (ℚ × Bool)) (ho : okOpt o) :
    flexTimeField (numOpt o) = .ok (tvalOf o) := by
  cases o with
  | none => rfl
  | some p =>
    obtain ⟨hr, h1, h2⟩ := ho
    show FlexibleTime.UnmarshalJSON (Json.num p.1 p.2) = .ok (truncQ p.1)
    simp only [FlexibleTime.UnmarshalJSON, hr, int64OfFloat, if_pos (And.intro h1 h2)]

/-- Counterexample to C1 as stated: the decode goes through `float64`, so
exact truncation fails where `float64` is not exact — the integer
`2 ^ 53 + 1` decodes to `2 ^ 53` (nearest-even rounding), not to its own
truncation — and a number beyond the `float64` range (`1e400`) is a decode
error rather than a truncated integer. -/
theorem C1_counterexample :
    FlexibleTime.UnmarshalJSON (Json.num (mkRat 9007199254740993 1) true) =
      .ok 9007199254740992 ∧
    truncQ (mkRat 9007199254740993 1) = 9007199254740993 ∧
    FlexibleTime.UnmarshalJSON (Json.num (mkRat (Int.ofNat (10 ^ 400)) 1) false) =
      .error "json: cannot unmarshal number into Go value of type float64" := by
  refine ⟨by rfl, by decide, by rfl⟩

/-- C1 (amended): a time-like field supplied as a JSON number is rounded
to the nearest binary64 and converted with `int64(f)`; whenever the number
is exactly representable as a binary64 and its truncation toward zero fits
a 64-bit `int`, the decoded integer is exactly that truncation — and the
spec's examples all decode to their truncations through the full pipeline
(`123.9 → 123`, `-0.5 → 0`, `123.456 → 123`).  An absent timings sub-field
still decodes to zero rather than causing an error. -/
theorem C1_time_truncation :
    (∀ (q : ℚ) (b : Bool), roundF64 q = some q →
      -(Int.ofNat (2 ^ 63)) ≤ truncQ q → truncQ q < Int.ofNat (2 ^ 63) →
      FlexibleTime.UnmarshalJSON (Json.num q b) = .ok (truncQ q)) ∧
    flexTimeField none = .ok 0 ∧
    (∀ (fields : List (String × Json)) (so wo ro bo dn co ss : Option (ℚ × Bool)),
      jget fields ("send") = numOpt so → jget fields ("wait") = numOpt wo →
      jget fields ("receive") = numOpt ro → jget fields ("blocked") = numOpt bo →
      jget fields ("dns") = numOpt dn → jget fields ("connect") = numOpt co →
      jget fields ("ssl") = numOpt ss →
      okOpt so → okOpt wo → okOpt ro → okOpt bo → okOpt dn → okOpt co → okOpt ss →
      decodeFlexTimings (some (.obj fields)) =
        .ok (some ⟨tvalOf so, tvalOf wo, tvalOf ro, tvalOf bo, tvalOf dn, tvalOf co, tvalOf ss⟩)) ∧
    FlexibleTime.UnmarshalJSON (Json.num (mkRat 1239 10) false) = .ok 123 ∧
    FlexibleTime.UnmarshalJSON (Json.num (mkRat (-1) 2) false) = .ok 0 ∧
    FlexibleTime.UnmarshalJSON (Json.num (mkRat 123456 1000) false) = .ok 123 := by
  refine ⟨?_, rfl, ?_, by rfl, by rfl, by rfl⟩
  · intro q b hr h1 h2
    simp only [FlexibleTime.UnmarshalJSON, hr, int64OfFloat, if_pos (And.intro h1 h2)]
  · intro fields so wo ro bo dn co ss h1 h2 h3 h4 h5 h6 h7 k1 k2 k3 k4 k5 k6 k7
    simp only [decodeFlexTimings, h1, h2, h3, h4, h5, h6, h7,
      flexTimeField_numOpt so k1, flexTimeField_numOpt wo k2, flexTimeField_numOpt ro k3,
      flexTimeField_numOpt bo k4, flexTimeField_numOpt dn k5, flexTimeField_numOpt co k6,
      flexTimeField_numOpt ss k7]
    rfl

/-- Witness for C1 (amended): a timings object carrying `send` as the
exactly-representable number `100` and `wait` absent. -/
theorem C1_time_truncation_witness :
    decodeFlexTimings (some (.obj [(("send"), Json.num (mkRat 100 1) true)])) =
      .ok (some ⟨100, 0, 0, 0, 0, 0, 0⟩) := by
  have h := C1_time_truncation.2.2.1
    [(("send"), Json.num (mkRat 100 1) true)]
    (some (mkRat 100 1, true)) none none none none none none
    (by rfl) (by rfl) (by rfl) (by rfl) (by rfl) (by rfl) (by rfl)
    (by exact ⟨by decide, by decide, by decide⟩)
    trivial trivial trivial trivial trivial trivial
  exact h

/-- Converting the tolerant log wrapper into a `FlexibleHAR` can only
yield a present log. -/
theorem flexLog_map_ok {j : Json} {fh : FlexibleHAR}
    (h : (decodeFlexLog j).map (fun l => FlexibleHAR.mk (some l)) = .ok fh) :
    fh.Log.isSome = true := by
  cases hdl : decodeFlexLog j with
  | error m => rw [hdl] at h; simp [Except.map] at h
  | ok l => rw [hdl] at h; simp [Except.map] at h; rw [← h]; rfl

/-- Whenever the strict decoder fails but the tolerant decoder succeeds,
the tolerant result carries a present log section: a document with an
absent or `null` log is accepted by the strict decoder too. -/
theorem flexOk_logSome_of_strictErr (d : JsonDoc) (e : String) (fh : FlexibleHAR)
    (hs : strictDecodeHAR d = .error e) (hf : flexDecodeHAR d = .ok fh) :
    fh.Log.isSome = true := by
  cases d with
  | malformed m => simp [flexDecodeHAR] at hf
  | value j =>
    cases j with
    | null => simp [strictDecodeHAR] at hs
    | bool b => simp [flexDecodeHAR] at hf
    | num q il => simp [flexDecodeHAR] at hf
    | str s => simp [flexDecodeHAR] at hf
    | arr xs => simp [flexDecodeHAR] at hf
    | obj f =>
      cases hlog : jget f ("log") with
      | none => simp [strictDecodeHAR, hlog] at hs
      | some jl =>
        cases jl
        case null => simp [strictDecodeHAR, hlog] at hs
        all_goals
          simp only [flexDecodeHAR, hlog] at hf
          exact flexLog_map_ok hf

/-- C2: `Parse` first attempts the strict decode; iff it fails, the
tolerant decode runs on the same buffer; if that also fails the surfaced
cause is the tolerant one (the strict failure is discarded); on tolerant
success the converted canonical archive is returned. -/
theorem C2_parse_dispatch (d : JsonDoc) :
    (∀ h, strictDecodeHAR d = .ok h → Parse d = .ok h) ∧
    (∀ e1 e2, strictDecodeHAR d = .error e1 → flexDecodeHAR d = .error e2 →
      Parse d = .error (ParseError.unparseable e2)) ∧
    (∀ e1 fh, strictDecodeHAR d = .error e1 → flexDecodeHAR d = .ok fh →
      ∃ h, fh.ToStandardHAR = some h ∧ Parse d = .ok h) := by
  refine ⟨?_, ?_, ?_⟩
  · intro h hs; simp [Parse, hs]
  · intro e1 e2 hs hf; simp [Parse, hs, hf]
  · intro e1 fh hs hf
    have hsome := flexOk_logSome_of_strictErr d e1 fh hs hf
    have hconv : fh.ToStandardHAR.isSome = true := by
      obtain ⟨l, hl⟩ := Option.isSome_iff_exists.mp hsome
      simp [FlexibleHAR.ToStandardHAR, hl]
    obtain ⟨h, hh⟩ := Option.isSome_iff_exists.mp hconv
    exact ⟨h, hh, by simp [Parse, hs, hf, hh]⟩

/-- A buffer whose entry `time` is the float `100.5`: the strict decoder
rejects it, the tolerant decoder accepts it. -/
def docFloatTime : JsonDoc :=
  .value (.obj [(("log"), .obj
    [(("version"), .str "1.2"),
     (("entries"), .arr [.obj [(("time"), .num (mkRat 201 2) false)]])])])

/-- Witness for C2: the strict-success branch on a trivial document, the
both-fail branch on a malformed buffer, and the tolerant-rescue branch on
a float-time document. -/
theorem C2_parse_dispatch_witness :
    Parse (JsonDoc.value .null) = .ok ⟨none⟩ ∧
    Parse (JsonDoc.malformed ("unexpected end of JSON input")) =
      .error (.unparseable "unexpected end of JSON input") ∧
    Parse docFloatTime = .ok ⟨some ⟨"1.2", none, [⟨"", zeroTimestamp, 100, none, none, none, none⟩]⟩⟩ := by
  refine ⟨(C2_parse_dispatch _).1 _ rfl, (C2_parse_dispatch _).2.1 _ _ rfl rfl, ?_⟩
  obtain ⟨h, hconv, hparse⟩ := (C2_parse_dispatch docFloatTime).2.2
    "json: cannot unmarshal number into Go value of type int64"
    ⟨some ⟨"1.2", none, [⟨"", zeroTimestamp, 100, none, none, none, none, "", "", ""⟩], none, none, ""⟩⟩
    rfl rfl
  have : h = ⟨some ⟨"1.2", none, [⟨"", zeroTimestamp, 100, none, none, none, none⟩]⟩⟩ := by
    have := hconv.symm.trans (rfl :
      FlexibleHAR.ToStandardHAR
        ⟨some ⟨"1.2", none, [⟨"", zeroTimestamp, 100, none, none, none, none, "", "", ""⟩], none, none, ""⟩⟩ =
      some ⟨some ⟨"1.2", none, [⟨"", zeroTimestamp, 100, none, none, none, none⟩]⟩⟩)
    exact (Option.some_injective _ this)
  rw [← this]; exact hparse

/-- Whether an `Except` result is a success. -/
def exceptIsOk : Except ε α → Bool
  | .ok _ => true
  | .error _ => false

/-- A tolerant-path document whose content text carries a corrupt base64
tag: `text` is not valid base64 although `encoding` says `base64`, and the
float `time` forces the tolerant path. -/
def docBadB64 : JsonDoc :=
  .value (.obj [(("log"), .obj
    [(("version"), .str "1.2"),
     (("entries"), .arr [.obj
       [(("time"), .num (mkRat 201 2) false),
        (("response"), .obj
          [(("status"), .num 200 true),
           (("content"), .obj
             [(("text"), .str "!!!not-base64!!!"),
              (("encoding"), .str "base64")])])]])])])

/-- C3: tolerant-path content decoding — an absent `text` yields an empty
body without error; a plain JSON string with no base64 tag yields exactly
its UTF-8 bytes; a string tagged `encoding = "base64"` is base64-decoded;
and when base64 decoding fails despite the tag, the literal string bytes
are stored and the parse of the whole document still succeeds. -/
theorem C3_content_decode :
    (∀ (sz : Int) (mt enc : String),
      FlexibleContent.ToStandardContent (some ⟨sz, mt, none, enc⟩) = some ⟨sz, mt, none, enc⟩) ∧
    (∀ (sz : Int) (mt enc s : String), enc ≠ "base64" →
      FlexibleContent.ToStandardContent (some ⟨sz, mt, some (.str s), enc⟩) =
        some ⟨sz, mt, some (utf8Bytes s), enc⟩) ∧
    (∀ (sz : Int) (mt s : String) (bs : List Nat), base64Decode s = some bs →
      FlexibleContent.ToStandardContent (some ⟨sz, mt, some (.str s), "base64"⟩) =
        some ⟨sz, mt, some bs, "base64"⟩) ∧
    (∀ (sz : Int) (mt s : String), base64Decode s = none →
      FlexibleContent.ToStandardContent (some ⟨sz, mt, some (.str s), "base64"⟩) =
        some ⟨sz, mt, some (utf8Bytes s), "base64"⟩) ∧
    base64Decode ("SGVsbG8gV29ybGQ=") = some (utf8Bytes ("Hello World")) ∧
    utf8Bytes ("\x7b\"ok\": true\x7d") =
      [123, 34, 111, 107, 34, 58, 32, 116, 114, 117, 101, 125] ∧
    exceptIsOk (Parse docBadB64) = true := by
  refine ⟨fun sz mt enc => rfl, ?_, ?_, ?_, by decide, by decide, by decide⟩
  · intro sz mt enc s h
    simp [FlexibleContent.ToStandardContent, goUnmarshalStr, h]
  · intro sz mt s bs hb
    simp [FlexibleContent.ToStandardContent, goUnmarshalStr, hb]
  · intro sz mt s hb
    simp [FlexibleContent.ToStandardContent, goUnmarshalStr, hb]

/-- Witness for C3: the spec's base64 example, its plain-text example, and
the literal fallback on a corrupt tag. -/
theorem C3_content_decode_witness :
    FlexibleContent.ToStandardContent
        (some ⟨11, "text/plain", some (.str "SGVsbG8gV29ybGQ="), "base64"⟩) =
      some ⟨11, "text/plain", some (utf8Bytes ("Hello World")), "base64"⟩ ∧
    FlexibleContent.ToStandardContent
        (some ⟨12, "application/json", some (.str "\x7b\"ok\": true\x7d"), ""⟩) =
      some ⟨12, "application/json", some (utf8Bytes ("\x7b\"ok\": true\x7d")), ""⟩ ∧
    FlexibleContent.ToStandardContent
        (some ⟨3, "text/plain", some (.str "!!!"), "base64"⟩) =
      some ⟨3, "text/plain", some (utf8Bytes ("!!!")), "base64"⟩ :=
  ⟨C3_content_decode.2.2.1 11 "text/plain" "SGVsbG8gV29ybGQ=" (utf8Bytes ("Hello World"))
      (by decide),
   C3_content_decode.2.1 12 "application/json" "" "\x7b\"ok\": true\x7d" (by decide),
   C3_content_decode.2.2.2.1 3 "text/plain" "!!!" (by decide)⟩

/-- Indexing a mapped list below its length applies the function to the
indexed element. -/
theorem getD_map_lt {α β : Type} {f : α → β} :
    ∀ (l : List α) (i : Nat), i < l.length → ∀ (d : β) (d' : α),
      (l.map f).getD i d = f (l.getD i d') := by
  intro l
  induction l with
  | nil => intro i hi; simp at hi
  | cons a t ih =>
    intro i hi d d'
    cases i with
    | zero => rfl
    | succ n => simpa using ih n (by simpa using hi) d d'

/-- C4: redaction returns a list of the same length and order, never
alters a header name, replaces a value with the sentinel `[REDACTED]` iff
the lower-cased name is one of the six sensitive names, and leaves every
other header byte-for-byte unchanged. -/
theorem C4_redaction (hs : List Header) :
    (redactAuthHeaders hs).length = hs.length ∧
    (∀ i, i < hs.length →
      ((redactAuthHeaders hs).getD i dHeader).Name = (hs.getD i dHeader).Name ∧
      ((redactAuthHeaders hs).getD i dHeader).Value =
        (if goToLower (hs.getD i dHeader).Name ∈ authHeaderNames then "[REDACTED]"
         else (hs.getD i dHeader).Value)) := by
  refine ⟨by simp [redactAuthHeaders], ?_⟩
  intro i hi
  rw [redactAuthHeaders, getD_map_lt hs i hi dHeader dHeader]
  refine ⟨?_, ?_⟩ <;> (beta_reduce; split <;> rfl)

/-- Headers used to exercise the redaction filter; the last name spells
`Cookie` with the Kelvin sign U+212A, which lower-cases to `cookie`. -/
def demoHeaders : List Header :=
  [⟨"AUTHORIZATION", "Bearer secret"⟩, ⟨"User-Agent", "curl"⟩,
   ⟨"Cookie", "sid=1"⟩, ⟨"Content-Type", "application/json"⟩,
   ⟨"Coo\u212Aie", "sid=2"⟩]

/-- Witness for C4: a mixed-case sensitive header becomes the sentinel, an
insensitive one is untouched, the Kelvin-sign spelling of `Cookie` is
redacted (its Unicode lower-casing is `cookie`), and length is
preserved. -/
theorem C4_redaction_witness :
    (redactAuthHeaders demoHeaders).length = 5 ∧
    ((redactAuthHeaders demoHeaders).getD 0 dHeader).Value = "[REDACTED]" ∧
    ((redactAuthHeaders demoHeaders).getD 0 dHeader).Name = "AUTHORIZATION" ∧
    ((redactAuthHeaders demoHeaders).getD 1 dHeader).Name = "User-Agent" ∧
    ((redactAuthHeaders demoHeaders).getD 1 dHeader).Value = "curl" ∧
    ((redactAuthHeaders demoHeaders).getD 4 dHeader).Name = "Coo\u212Aie" ∧
    ((redactAuthHeaders demoHeaders).getD 4 dHeader).Value = "[REDACTED]" :=
  ⟨(C4_redaction demoHeaders).1.trans (by decide),
   ((C4_redaction demoHeaders).2 0 (by decide)).2.trans (by decide),
   ((C4_redaction demoHeaders).2 0 (by decide)).1.trans (by decide),
   ((C4_redaction demoHeaders).2 1 (by decide)).1.trans (by decide),
   ((C4_redaction demoHeaders).2 1 (by decide)).2.trans (by decide),
   ((C4_redaction demoHeaders).2 4 (by decide)).1.trans (by decide),
   ((C4_redaction demoHeaders).2 4 (by decide)).2.trans (by decide)⟩

/-- C9: a load attempt that fails — source error or parse error — leaves
the session state exactly as it was: the prior archive (if any) remains
current and every query answers against it unchanged. -/
theorem C9_failed_load_preserves_archive (srv : HARServer) (e : LoadError) :
    (loadHAR srv (.error e)).1 = srv ∧
    (loadHAR srv (.error e)).2 = some e ∧
    handleListURLsMethods (loadHAR srv (.error e)).1 = handleListURLsMethods srv ∧
    (∀ u m, handleGetRequestIDs (loadHAR srv (.error e)).1 u m = handleGetRequestIDs srv u m) ∧
    (∀ id, handleGetRequestDetails (loadHAR srv (.error e)).1 id =
      handleGetRequestDetails srv id) :=
  ⟨rfl, rfl, rfl, fun _ _ => rfl, fun _ => rfl⟩

/-- Counterexample to C7 as stated: a `FlexibleHAR` with an absent log
section is decodable (the tolerant decoder accepts `null` and objects
without a `log` field), yet `ToStandardHAR` dereferences the nil log and
crashes — modelled by `none` — so the conversion is not total on every
decodable value. -/
theorem C7_counterexample : FlexibleHAR.ToStandardHAR ⟨none⟩ = none := rfl

/-- C7 (amended): the conversion to the canonical model is total for every
decodable `FlexibleHAR` whose log section is present; moreover every
tolerant intermediate value that `Parse` actually converts (tolerant decode
succeeded after a strict failure) has a present log, so the conversion
never crashes inside `Parse`. -/
theorem C7_conversion_total_on_present_log :
    (∀ (fh : FlexibleHAR) (l : FlexibleLog), fh.Log = some l →
      (FlexibleHAR.ToStandardHAR fh).isSome = true) ∧
    (∀ (d : JsonDoc) (e : String) (fh : FlexibleHAR),
      strictDecodeHAR d = .error e → flexDecodeHAR d = .ok fh →
      (FlexibleHAR.ToStandardHAR fh).isSome = true) := by
  have total : ∀ (fh : FlexibleHAR) (l : FlexibleLog), fh.Log = some l →
      (FlexibleHAR.ToStandardHAR fh).isSome = true := by
    intro fh l hl
    simp [FlexibleHAR.ToStandardHAR, hl]
  refine ⟨total, ?_⟩
  intro d e fh hs hf
  obtain ⟨l, hl⟩ := Option.isSome_iff_exists.mp (flexOk_logSome_of_strictErr d e fh hs hf)
  exact total fh l hl

/-- An empty but present tolerant log. -/
def emptyFlexLog : FlexibleLog := ⟨"1.2", none, [], none, none, ""⟩

/-- Witness for C7: the conversion succeeds on a present (empty) log. -/
theorem C7_conversion_total_witness :
    (FlexibleHAR.ToStandardHAR ⟨some emptyFlexLog⟩).isSome = true :=
  C7_conversion_total_on_present_log.1 ⟨some emptyFlexLog⟩ emptyFlexLog rfl

/-- Whether a load result is a source-acquisition error. -/
def isSourceErr : Except LoadError HAR → Bool
  | .error (.source _) => true
  | _ => false

/-- A well-formed minimal HAR document. -/
def validDoc : JsonDoc :=
  .value (.obj [(("log"), .obj [(("version"), .str "1.2"), (("entries"), .arr [])])])

/-- Counterexample to C6 as stated: a response with the 2xx status 201 and
a perfectly parseable body is rejected at the fetch boundary with a source
error — the code demands status exactly 200, not any 2xx. -/
theorem C6_counterexample :
    isSourceErr (ParseFromURL (.response 201 validDoc)) = true ∧
    exceptIsOk (Parse validDoc) = true := by decide

/-- C6 (amended): a URL load fails with a source error exactly when the
fetch fails — an I/O failure/timeout or a status other than exactly 200 —
and only a status-200 body proceeds to the parsing stage, whose outcome is
surfaced as a parse result, never as a source error. -/
theorem C6_fetch_boundary :
    (∀ msg, ParseFromURL (.failure msg) =
      .error (.source ("failed to fetch HAR from URL: " ++ msg))) ∧
    (∀ status body, status ≠ 200 → ParseFromURL (.response status body) =
      .error (.source ("failed to fetch HAR: HTTP " ++ natStr status))) ∧
    (∀ body h, Parse body = .ok h → ParseFromURL (.response 200 body) = .ok h) ∧
    (∀ body e, Parse body = .error e →
      ParseFromURL (.response 200 body) = .error (.parse e)) := by
  refine ⟨fun msg => rfl, ?_, ?_, ?_⟩
  · intro status body h
    simp [ParseFromURL, h]
  · intro body h hp
    simp [ParseFromURL, hp]
  · intro body e hp
    simp [ParseFromURL, hp]

/-- Witness for C6: a 404 is a source error while a 200 with the same body
parses. -/
theorem C6_fetch_boundary_witness :
    isSourceErr (ParseFromURL (.response 404 validDoc)) = true ∧
    ParseFromURL (.response 200 validDoc) = .ok ⟨some ⟨"1.2", none, []⟩⟩ := by
  constructor
  · rw [C6_fetch_boundary.2.1 404 validDoc (by decide)]; rfl
  · exact C6_fetch_boundary.2.2.1 validDoc ⟨some ⟨"1.2", none, []⟩⟩ rfl

/-- An entry with only a request URL and method set. -/
def mkSimpleEntry (url method : String) : Entry :=
  ⟨"", zeroTimestamp, 0, some ⟨method, url, "", none, [], none, none, 0, 0⟩, none, none, none⟩

/-- The spec's grouping example: `[GET /x, POST /x, GET /x]`. -/
def exampleHAR3 : HAR :=
  ⟨some ⟨"1.2", none,
    [mkSimpleEntry "/x" "GET", mkSimpleEntry "/x" "POST", mkSimpleEntry "/x" "GET"]⟩⟩

/-- Two entries with distinct (URL, method) pairs that collide under the
`url + "|" + method` grouping key: `("a|b", "c")` and `("a", "b|c")`. -/
def collisionHAR : HAR :=
  ⟨some ⟨"1.2", none, [mkSimpleEntry "a|b" "c", mkSimpleEntry "a" "b|c"]⟩⟩

/-- C8: on the spec's example the grouping behaves as claimed — two groups
with member identifiers in first-seen order — but grouping is keyed on the
string `url + "|" + method`, so the two distinct pairs `("a|b", "c")` and
`("a", "b|c")` are merged into a single group, contradicting grouping by
exact equality of the (URL, method) pair: the code's collapsing of
distinct combinations is a defect against its own documented behaviour. -/
theorem C8_grouping_eval :
    GetURLsAndMethods exampleHAR3 =
      some [⟨"/x", "GET", ["request_0", "request_2"]⟩, ⟨"/x", "POST", ["request_1"]⟩] ∧
    GetURLsAndMethods collisionHAR = some [⟨"a|b", "c", ["request_0", "request_1"]⟩] := by
  decide

/-- The digit expansion ignores the fuel once it exceeds the argument. -/
theorem natToDecAux_fuel : ∀ (n f1 f2 : Nat), n < f1 → n < f2 →
    natToDecAux f1 n = natToDecAux f2 n := by
  intro n
  induction n using Nat.strong_induction_on with
  | _ n ih =>
    intro f1 f2 h1 h2
    match f1, f2 with
    | g1 + 1, g2 + 1 =>
      simp only [natToDecAux]
      by_cases h10 : n < 10
      · simp [h10]
      · simp only [h10, if_false]
        have hd : n / 10 < n := Nat.div_lt_self (by omega) (by omega)
        rw [ih (n / 10) hd g1 g2 (by omega) (by omega)]

/-- Unfolding equation of the digit expansion. -/
theorem natToDec_eq (n : Nat) :
    natToDec n = if n < 10 then [decDigit n] else natToDec (n / 10) ++ [decDigit (n % 10)] := by
  show natToDecAux (n + 1) n = _
  simp only [natToDecAux]
  by_cases h10 : n < 10
  · simp [h10]
  · simp only [h10, if_false]
    have hd : n / 10 < n := Nat.div_lt_self (by omega) (by omega)
    rw [natToDecAux_fuel (n / 10) n (n / 10 + 1) (by omega) (by omega)]
    rfl

/-- Facts about a single decimal digit character. -/
theorem decDigit_facts (k : Nat) (hk : k < 10) :
    Char.isDigit (decDigit k) = true ∧ (decDigit k).toNat = 48 + k ∧
    decDigit k ≠ '-' ∧ decDigit k ≠ '+' ∧ isGoScanSpace (decDigit k) = false := by
  interval_cases k <;> decide

/-- The digit expansion is non-empty and consists of digit characters. -/
theorem natToDec_digits : ∀ n : Nat, natToDec n ≠ [] ∧
    ∀ c ∈ natToDec n, ∃ k, k < 10 ∧ c = decDigit k := by
  intro n
  induction n using Nat.strong_induction_on with
  | _ n ih =>
    rw [natToDec_eq]
    by_cases h10 : n < 10
    · simp only [h10, if_true]
      exact ⟨by simp, by intro c hc; simp at hc; exact ⟨n, h10, hc⟩⟩
    · simp only [h10, if_false]
      have hd : n / 10 < n := Nat.div_lt_self (by omega) (by omega)
      refine ⟨by simp, ?_⟩
      intro c hc
      rw [List.mem_append] at hc
      rcases hc with hc | hc
      · exact (ih (n / 10) hd).2 c hc
      · simp at hc
        exact ⟨n % 10, by omega, hc⟩

/-- Shifting the accumulator of the decimal-value fold. -/
theorem foldl_decStep_shift : ∀ (l : List Char) (a : Nat),
    l.foldl (fun a c => 10 * a + (c.toNat - 48)) a =
      a * 10 ^ l.length + l.foldl (fun a c => 10 * a + (c.toNat - 48)) 0 := by
  intro l
  induction l with
  | nil => intro a; simp
  | cons c t ih =>
    intro a
    simp only [List.foldl_cons, List.length_cons]
    rw [ih (10 * a + (c.toNat - 48)), ih (10 * 0 + (c.toNat - 48))]
    ring

/-- The decimal value of the digit expansion is the original number. -/
theorem decVal_natToDec : ∀ n : Nat, decVal (natToDec n) = n := by
  intro n
  induction n using Nat.strong_induction_on with
  | _ n ih =>
    rw [decVal, natToDec_eq]
    by_cases h10 : n < 10
    · simp only [h10, if_true, List.foldl_cons, List.foldl_nil]
      have := (decDigit_facts n h10).2.1
      omega
    · simp only [h10, if_false]
      have hd : n / 10 < n := Nat.div_lt_self (by omega) (by omega)
      rw [List.foldl_append]
      have ihd : (natToDec (n / 10)).foldl (fun a c => 10 * a + (c.toNat - 48)) 0 = n / 10 :=
        ih (n / 10) hd
      rw [ihd]
      simp only [List.foldl_cons, List.foldl_nil]
      have := (decDigit_facts (n % 10) (by omega)).2.1
      omega

/-- `takeWhile` keeps a list all of whose elements satisfy the predicate. -/
theorem takeWhile_all {p : Char → Bool} :
    ∀ l : List Char, (∀ c ∈ l, p c = true) → l.takeWhile p = l := by
  intro l
  induction l with
  | nil => intro _; rfl
  | cons c t ih =>
    intro h
    rw [List.takeWhile_cons, h c (by simp)]
    simp [ih (fun x hx => h x (by simp [hx]))]

/-- Stripping a literal off a buffer that starts with it leaves the rest. -/
theorem stripLit_append : ∀ (ps cs : List Char), stripLit ps (ps ++ cs) = some cs := by
  intro ps
  induction ps with
  | nil => intro cs; rfl
  | cons p t ih => intro cs; simp [stripLit, ih]

/-- `dropWhile` keeps a list whose head fails the predicate. -/
theorem dropWhile_not_head {p : Char → Bool} (c : Char) (t : List Char) (h : p c = false) :
    (c :: t).dropWhile p = c :: t := by
  simp [List.dropWhile_cons, h]

/-- Round trip: scanning a generated positional identifier recovers the
index (for any index representable in a 64-bit `int`). -/
theorem scan_mkRequestID (i : Nat) (hi : i < 2 ^ 63) :
    scanRequestIndex (mkRequestID i) = some (i : Int) := by
  have hdata : (mkRequestID i).data = ("request_".data) ++ natToDec i := rfl
  rw [scanRequestIndex, hdata, stripLit_append]
  obtain ⟨hne, hdig⟩ := natToDec_digits i
  cases hnd : natToDec i with
  | nil => exact absurd hnd hne
  | cons c t =>
    obtain ⟨k, hk, hck⟩ := hdig c (by rw [hnd]; simp)
    have hfacts := decDigit_facts k hk
    have hsp : isGoScanSpace c = false := by rw [hck]; exact hfacts.2.2.2.2
    simp only [hnd]
    rw [dropWhile_not_head c t hsp]
    have hcm : ¬(c = '-') := by rw [hck]; exact hfacts.2.2.1
    have hcp : ¬(c = '+') := by rw [hck]; exact hfacts.2.2.2.1
    have htw : (c :: t).takeWhile Char.isDigit = c :: t := by
      apply takeWhile_all
      intro x hx
      obtain ⟨k', hk', hxk⟩ := hdig x (by rw [hnd]; exact hx)
      rw [hxk]
      exact (decDigit_facts k' hk').1
    have hsd : scanDigits (c :: t) = some i := by
      simp only [scanDigits, htw]
      rw [if_neg (by simp : ¬(c :: t = []))]
      rw [show decVal (c :: t) = i from by rw [← hnd]; exact decVal_natToDec i]
    show (if c = '-' then
            (scanDigits t).bind (fun n => if n ≤ 2 ^ 63 then some (-(n : Int)) else none)
          else if c = '+' then
            (scanDigits t).bind (fun n => if n < 2 ^ 63 then some ((n : Int)) else none)
          else
            (scanDigits (c :: t)).bind (fun n => if n < 2 ^ 63 then some ((n : Int)) else none)) =
        some (i : Int)
    rw [if_neg hcm, if_neg hcp, hsd]
    simp only [Option.bind]
    rw [if_pos (by omega)]

/-- A one-entry archive used by the spec's ID-validation examples. -/
def oneEntryLog : Log :=
  ⟨"1.2", none, [⟨"", ⟨"2023-01-01T00:00:00.000Z"⟩, 100,
    some ⟨"GET", "https://example.com", "HTTP/1.1", none, [], none, none, 0, 0⟩,
    none, none, none⟩]⟩

/-- The archive wrapping `oneEntryLog`. -/
def oneEntryHAR : HAR := ⟨some oneEntryLog⟩

/-- Counterexample to C5 as stated: `request_0junk` does not match the
`request_<integer>` shape, yet the lookup succeeds — `fmt.Sscanf` stops
after the scanned integer and ignores trailing characters, so the invalid
identifier is not rejected. -/
theorem C5_counterexample :
    exceptIsOk (GetRequestDetails oneEntryHAR ("request_0junk")) = true ∧
    GetRequestDetails oneEntryHAR ("request_0junk") ≠
      Except.error (.invalidID "request_0junk") := by
  constructor
  · decide
  · intro hcontra
    have h1 : exceptIsOk (GetRequestDetails oneEntryHAR ("request_0junk")) = true := by decide
    rw [hcontra] at h1
    exact absurd h1 (by decide)

/-- C5 (amended): the lookup fails with the invalid-ID error exactly when
the `Sscanf` scan fails — the identifier must carry the literal `request_`
prefix, then optional white space (any `unicode.White_Space`; a newline
makes the scan fail), an optional sign and at least one decimal digit with
the value fitting a 64-bit `int`, while characters after the digits are
ignored; a scanned index outside `[0, len(entries))` fails with the
out-of-range error; otherwise (on archives whose entries all carry a
request) the lookup succeeds with the redacted projection of entry `i`,
echoing the queried identifier.  On the one-entry archive, `request_0`
succeeds, `invalid_id` fails invalid-ID, `request_999` fails
out-of-range. -/
theorem C5_details_lookup (h : HAR) (l : Log) (hl : h.Log = some l)
    (hreq : ∀ e ∈ l.Entries, e.Request.isSome = true) (id : String) :
    (scanRequestIndex id = none → GetRequestDetails h id = .error (.invalidID id)) ∧
    (∀ i : Int, scanRequestIndex id = some i → (i < 0 ∨ (l.Entries.length : Int) ≤ i) →
      GetRequestDetails h id = .error (.outOfRange id)) ∧
    (∀ i : Int, scanRequestIndex id = some i → 0 ≤ i → i < (l.Entries.length : Int) →
      ∃ req, (l.Entries.getD i.toNat zeroEntry).Request = some req ∧
        GetRequestDetails h id = .ok (mkDetails id (l.Entries.getD i.toNat zeroEntry) req) ∧
        (mkDetails id (l.Entries.getD i.toNat zeroEntry) req).RequestID = id) ∧
    exceptIsOk (GetRequestDetails oneEntryHAR ("request_0")) = true ∧
    GetRequestDetails oneEntryHAR ("invalid_id") = .error (.invalidID "invalid_id") ∧
    GetRequestDetails oneEntryHAR ("request_999") = .error (.outOfRange "request_999") := by
  refine ⟨?_, ?_, ?_, by decide, rfl, rfl⟩
  · intro hscan
    simp only [GetRequestDetails, hscan]
  · intro i hscan hout
    simp only [GetRequestDetails, hscan, hl]
    rw [if_pos hout]
  · intro i hscan h0 hlt
    have hn : i.toNat < l.Entries.length := by omega
    have hmem : l.Entries.getD i.toNat zeroEntry ∈ l.Entries := by
      rw [List.getD_eq_getElem l.Entries zeroEntry hn]
      exact List.getElem_mem hn
    obtain ⟨req, hr⟩ := Option.isSome_iff_exists.mp (hreq _ hmem)
    refine ⟨req, hr, ?_, rfl⟩
    simp only [GetRequestDetails, hscan, hl]
    rw [if_neg (by omega : ¬(i < 0 ∨ (l.Entries.length : Int) ≤ i))]
    simp only [hr]

/-- Witness for C5 (amended): the in-range branch evaluated on the
one-entry archive. -/
theorem C5_details_lookup_witness :
    exceptIsOk (GetRequestDetails oneEntryHAR ("request_0")) = true :=
  (C5_details_lookup oneEntryHAR oneEntryLog rfl (by decide) "request_0").2.2.2.1

/-- Every element of an indexed traversal is the list element at the
offset position. -/
theorem mem_withIdx {α : Type} (d : α) :
    ∀ (l : List α) (base : Nat) (p : Nat × α), p ∈ withIdx base l →
      ∃ k, k < l.length ∧ p.1 = base + k ∧ l.getD k d = p.2 := by
  intro l
  induction l with
  | nil => intro base p hp; simp [withIdx] at hp
  | cons a t ih =>
    intro base p hp
    rw [withIdx, List.mem_cons] at hp
    rcases hp with hp | hp
    · exact ⟨0, by simp, by rw [hp]; simp, by rw [hp]; rfl⟩
    · obtain ⟨k, hk, h1, h2⟩ := ih (base + 1) p hp
      exact ⟨k + 1, by simpa using hk, by omega, by simpa using h2⟩

/-- Every identifier in the result of a map insertion was already in the
accumulator or is the inserted identifier. -/
theorem mem_ids_upsert :
    ∀ (acc : List (String × URLMethodEntry)) (key url method id : String)
      (g : String × URLMethodEntry), g ∈ upsertGroup key url method id acc →
      ∀ x ∈ g.2.RequestIDs, (∃ g' ∈ acc, x ∈ g'.2.RequestIDs) ∨ x = id := by
  intro acc
  induction acc with
  | nil =>
    intro key url method id g hg x hx
    simp [upsertGroup] at hg
    rw [hg] at hx
    simp at hx
    exact Or.inr hx
  | cons ke rest ih =>
    intro key url method id g hg x hx
    obtain ⟨k, e⟩ := ke
    rw [upsertGroup] at hg
    by_cases hkey : k = key
    · rw [if_pos hkey, List.mem_cons] at hg
      rcases hg with hg | hg
      · rw [hg] at hx
        simp at hx
        rcases hx with hx | hx
        · exact Or.inl ⟨(k, e), by simp, hx⟩
        · exact Or.inr hx
      · exact Or.inl ⟨g, by simp [hg], hx⟩
    · rw [if_neg hkey, List.mem_cons] at hg
      rcases hg with hg | hg
      · exact Or.inl ⟨(k, e), by simp, by rw [hg] at hx; exact hx⟩
      · rcases ih key url method id g hg x hx with ⟨g', hg', hx'⟩ | hx'
        · exact Or.inl ⟨g', by simp [hg'], hx'⟩
        · exact Or.inr hx'

/-- Invariant of the grouping loop: a property holding of every
accumulated identifier and of every identifier about to be inserted holds
of every identifier in the final groups. -/
theorem mem_ids_collect :
    ∀ (ps : List (Nat × Entry)) (acc : List (String × URLMethodEntry)) (P : String → Prop),
      (∀ g ∈ acc, ∀ x ∈ g.2.RequestIDs, P x) →
      (∀ i e, (i, e) ∈ ps → e.Request.isSome = true → P (mkRequestID i)) →
      ∀ g ∈ collectGroups ps acc, ∀ x ∈ g.2.RequestIDs, P x := by
  intro ps
  induction ps with
  | nil => intro acc P hacc _ g hg x hx; exact hacc g hg x hx
  | cons pe rest ih =>
    intro acc P hacc hps g hg x hx
    obtain ⟨i, e⟩ := pe
    rw [collectGroups] at hg
    cases hre : e.Request with
    | none =>
      rw [hre] at hg
      exact ih acc P hacc (fun i' e' h' => hps i' e' (by simp [h'])) g hg x hx
    | some req =>
      rw [hre] at hg
      refine ih _ P ?_ (fun i' e' h' => hps i' e' (by simp [h'])) g hg x hx
      intro g' hg' x' hx'
      rcases mem_ids_upsert acc _ _ _ _ g' hg' x' hx' with ⟨g'', hg'', hx''⟩ | hx''
      · exact hacc g'' hg'' x' hx''
      · rw [hx'']
        exact hps i e (by simp) (by rw [hre]; rfl)

/-- Looking up a generated positional identifier of an in-range entry
whose request is present succeeds with that entry's projection. -/
theorem getDetails_mkRequestID (h : HAR) (l : Log) (hl : h.Log = some l)
    (hlen : l.Entries.length ≤ 2 ^ 63) (i : Nat) (hi : i < l.Entries.length)
    (req : Request) (hreq : (l.Entries.getD i zeroEntry).Request = some req) :
    GetRequestDetails h (mkRequestID i) =
      .ok (mkDetails (mkRequestID i) (l.Entries.getD i zeroEntry) req) := by
  have hscan := scan_mkRequestID i (by omega)
  simp only [GetRequestDetails, hscan, hl]
  rw [if_neg (by omega : ¬((i : Int) < 0 ∨ (l.Entries.length : Int) ≤ (i : Int)))]
  simp only [Int.toNat_natCast, hreq]

/-- C10: every positional identifier returned by the URL/method listing or
by the per-combination query is accepted by the detail lookup — it never
fails with the invalid-ID or out-of-range error — and the returned details
carry a `request_id` equal to the queried identifier.  (Hypotheses: the
archive's log is present, and the entry count fits a 64-bit `int`, as any
Go slice length does.) -/
theorem C10_roundtrip (h : HAR) (l : Log) (hl : h.Log = some l)
    (hlen : l.Entries.length ≤ 2 ^ 63) :
    (∀ gs, GetURLsAndMethods h = some gs → ∀ g ∈ gs, ∀ id ∈ g.RequestIDs,
      ∃ d, GetRequestDetails h id = .ok d ∧ d.RequestID = id) ∧
    (∀ u m ids, GetRequestIDsForURLMethod h u m = some ids → ∀ id ∈ ids,
      ∃ d, GetRequestDetails h id = .ok d ∧ d.RequestID = id) := by
  have hP : ∀ id : String,
      (∃ i, i < l.Entries.length ∧ id = mkRequestID i ∧
        (l.Entries.getD i zeroEntry).Request.isSome = true) →
      ∃ d, GetRequestDetails h id = .ok d ∧ d.RequestID = id := by
    rintro id ⟨i, hi, hid, hsome⟩
    obtain ⟨req, hreq⟩ := Option.isSome_iff_exists.mp hsome
    subst hid
    exact ⟨_, getDetails_mkRequestID h l hl hlen i hi req hreq, rfl⟩
  constructor
  · intro gs hgs g hg id hid
    simp only [GetURLsAndMethods, hl] at hgs
    have hgs' := Option.some.inj hgs
    apply hP
    obtain ⟨g0, hg0, hgeq⟩ := List.mem_map.mp (by rw [hgs']; exact hg)
    refine mem_ids_collect (withIdx 0 l.Entries) []
      (fun x => ∃ i, i < l.Entries.length ∧ x = mkRequestID i ∧
        (l.Entries.getD i zeroEntry).Request.isSome = true)
      (by simp) ?_ g0 hg0 id (by rw [hgeq]; exact hid)
    intro i e hmem hsome
    obtain ⟨k, hk, hik, hkd⟩ := mem_withIdx zeroEntry l.Entries 0 (i, e) hmem
    simp only at hik hkd
    exact ⟨k, hk, by rw [hik]; simp, by rw [hkd]; exact hsome⟩
  · intro u m ids hids id hid
    simp only [GetRequestIDsForURLMethod, hl] at hids
    have hids' := Option.some.inj hids
    rw [← hids'] at hid
    obtain ⟨p, hp, hf⟩ := List.mem_filterMap.mp hid
    obtain ⟨i, e⟩ := p
    simp only [] at hf
    cases hre : e.Request with
    | none =>
      rw [hre] at hf
      exact absurd (hf : (none : Option String) = some id) (by simp)
    | some req =>
      rw [hre] at hf
      have hf' : (if req.URL = u ∧ req.Method = m then some (mkRequestID i) else none) =
          some id := hf
      by_cases hc : req.URL = u ∧ req.Method = m
      · rw [if_pos hc] at hf'
        have hidm := Option.some.inj hf'
        apply hP
        obtain ⟨k, hk, hik, hkd⟩ := mem_withIdx zeroEntry l.Entries 0 (i, e) hp
        simp only at hik hkd
        refine ⟨k, hk, by rw [← hidm]; simp [hik], ?_⟩
        rw [hkd, hre]
        rfl
      · rw [if_neg hc] at hf'
        exact absurd hf' (by simp)

/-- Witness for C10: the listing of the three-entry example emits
`request_2`, whose lookup succeeds. -/
theorem C10_roundtrip_witness :
    exceptIsOk (GetRequestDetails exampleHAR3 ("request_2")) = true := by
  obtain ⟨d, hd, _⟩ := (C10_roundtrip exampleHAR3
      ⟨"1.2", none, [mkSimpleEntry "/x" "GET", mkSimpleEntry "/x" "POST", mkSimpleEntry "/x" "GET"]⟩
      rfl (by decide)).1
    [⟨"/x", "GET", ["request_0", "request_2"]⟩, ⟨"/x", "POST", ["request_1"]⟩] (by decide)
    ⟨"/x", "GET", ["request_0", "request_2"]⟩ (by decide) "request_2" (by decide)
  rw [hd]; rfl

/-- Witness for C9: a failed load on a server holding the one-entry
archive leaves its state intact. -/
theorem C9_failed_load_preserves_witness :
    (loadHAR ⟨some oneEntryHAR⟩ (.error (.source "connection refused"))).1 =
      (⟨some oneEntryHAR⟩ : HARServer) :=
  (C9_failed_load_preserves_archive ⟨some oneEntryHAR⟩ (.source "connection refused")).1
